import Mathlib

/-!
Verification development for `DocumentationGenerator.py`.

The script walks a directory, filters files by extension, asks a remote
service for per-file documentation, records documentation and scanned
references in two dictionaries, writes a per-file doc next to each source
file, and finally writes an aggregated overview document.

This file shallowly embeds the script: the pure string/regex/path helpers
become Lean functions translated from the Python source (and from the
CPython `posixpath` implementations of `os.path.splitext`, `basename`,
`dirname`, `join`, since the script runs them on a POSIX system); the
effectful parts (`os.walk`, `open`, `requests.post`) are abstracted as an
environment of oracles, and `main` becomes a fold over the filtered file
list recording the observable events.
-/

/-! ### Python character-class helpers

`pyIsSpace` models Python's `\s` character class and `str.strip()` for the
ASCII whitespace characters (space, tab, newline, carriage return, vertical
tab, form feed).  All string literals appearing in the script and in the
claims are ASCII, so the additional Unicode whitespace code points that
Python's `re` module would also accept are irrelevant here. -/

def pyIsSpace (c : Char) : Bool :=
  c = ' ' || c = '\t' || c = '\n' || c = '\r' || c = '\x0b' || c = '\x0c'

/-- Python `str.strip()` on ASCII whitespace: drop whitespace from both ends. -/
def pyStrip (s : String) : String :=
  String.mk (((s.toList.dropWhile pyIsSpace).reverse.dropWhile pyIsSpace).reverse)

/-- The single-quote character, written by code so that it can be used
inside the modelled PHP contents. -/
def squote : Char := '\x27'

/-- A one-character string holding a single quote. -/
def sqStr : String := String.mk [squote]

/-- Python `str.lower()`, which on the ASCII strings handled here agrees
with mapping `Char.toLower` over the characters. -/
def pyLower (s : String) : String := String.mk (s.toList.map Char.toLower)

/-! ### `os.path` helpers (POSIX variants, as used by the script) -/

/-- Python `str.rfind` for a single character: index of the last occurrence
in the character list, `-1` if absent. -/
def pyRfind (c : Char) : List Char → Int
  | [] => -1
  | x :: xs =>
    let r := pyRfind c xs
    if r ≥ 0 then r + 1
    else if x = c then 0 else -1

/-- Python `posixpath.splitext`: split at the last dot of the path, provided that
dot lies after the last separator and the basename does not consist solely
of leading dots (CPython `genericpath._splitext`). -/
def splitext (p : String) : String × String :=
  let l := p.toList
  let sepIndex := pyRfind '/' l
  let dotIndex := pyRfind '.' l
  if sepIndex < dotIndex then
    let base := (l.take dotIndex.toNat).drop (sepIndex + 1).toNat
    if base.any (fun c => c ≠ '.') then
      (String.mk (l.take dotIndex.toNat), String.mk (l.drop dotIndex.toNat))
    else (p, "")
  else (p, "")

/-- Python `posixpath.basename`: everything after the last separator. -/
def pyBasename (p : String) : String :=
  let l := p.toList
  String.mk (l.drop (pyRfind '/' l + 1).toNat)

/-- Python `posixpath.dirname`: everything up to the last separator; trailing
separators are stripped unless the prefix is empty or all separators. -/
def pyDirname (p : String) : String :=
  let l := p.toList
  let head := l.take (pyRfind '/' l + 1).toNat
  if head.any (fun c => c ≠ '/') then
    String.mk ((head.reverse.dropWhile (fun c => c = '/')).reverse)
  else String.mk head

/-- Python `posixpath.join` restricted to two components, as the script calls it.
(`startswith`/`endswith` are spelled out on the character lists so that the
function evaluates by kernel reduction.) -/
def pyJoin (a b : String) : String :=
  if b.toList.take 1 = ['/'] then b
  else if a = "" then a ++ b
  else if a.toList.reverse.take 1 = ['/'] then a ++ b
  else a ++ "/" ++ b

/-- Model of `save_file_in_same_directory` (lines 53-65 of the script): the output
path it writes to, `os.path.join(dirname(p), splitext(basename(p))[0] + "_doc.txt")`.
The write itself is an effect handled by the orchestrator model below. -/
def save_output_path (original_file_path : String) : String :=
  let base_dir := pyDirname original_file_path
  let base_name := (splitext (pyBasename original_file_path)).1
  pyJoin base_dir (base_name ++ "_doc.txt")

/-! ### The PHP include pattern

`PHP_INCLUDE_PATTERN = (include|require)(_once)?\s*\(?['"]([^'"]+)['"]\)?`

applied with `re.findall`, which scans left to right, emits the tuple of
captured groups of each leftmost non-overlapping match, and resumes after
each match.  The matcher below is a hand specialisation of Python's
backtracking engine to this one pattern:

* `(include|require)`: the two alternatives are mutually exclusive
  7-character literals, so trying `include` first with fallback to
  `require` is an ordinary first-match test;
* `(_once)?`, `\s*`, `\(?` are greedy with explicit fallback to the
  shorter alternative when the rest of the pattern fails;
* `([^'"]+)['"]`: the greedy `[^'"]+` stops exactly at the first quote (or
  the end of input); shortening it by backtracking leaves a non-quote
  character in front of the `['"]`, so no backtracking branch inside the
  group can ever succeed and a single scan to the first quote is exact;
* the trailing `\)?` is greedy, which affects where the next findall scan
  resumes.

Every match consumes at least ten characters, so a zero-length-match rule
is not needed. -/

def isQuoteChar (c : Char) : Bool := c = squote || c = '"'

/-- Scan `[^'"]+['"]`: collect non-quote characters until the first quote;
succeed (returning the collected group and the rest after the closing
quote) only if at least one character was collected. -/
def scanGroup3 (acc : List Char) : List Char → Option (List Char × List Char)
  | [] => none
  | c :: rest =>
    if isQuoteChar c then
      if acc.isEmpty then none else some (acc.reverse, rest)
    else scanGroup3 (c :: acc) rest

/-- The trailing `\)?`: greedily consume a single closing parenthesis. -/
def dropCloseParen : List Char → List Char
  | ')' :: r => r
  | r => r

/-- Match `['"]([^'"]+)['"]\)?` at the head of `s`, with groups 1 and 2
already determined. -/
def matchQuoted (g1 g2 : String) (s : List Char) :
    Option ((String × String × String) × List Char) :=
  match s with
  | [] => none
  | c :: rest =>
    if isQuoteChar c then
      match scanGroup3 [] rest with
      | some (g, r2) => some ((g1, g2, String.mk g), dropCloseParen r2)
      | none => none
    else none

/-- Match `\(?['"]([^'"]+)['"]\)?`: greedily consume an opening parenthesis,
falling back to not consuming it. -/
def matchOpenParen (g1 g2 : String) (s : List Char) :
    Option ((String × String × String) × List Char) :=
  match s with
  | [] => matchQuoted g1 g2 []
  | c :: rest =>
    if c = '(' then
      match matchQuoted g1 g2 rest with
      | some r => some r
      | none => matchQuoted g1 g2 (c :: rest)
    else matchQuoted g1 g2 (c :: rest)

/-- Match `\s*\(?['"]([^'"]+)['"]\)?`: greedy whitespace with backtracking. -/
def matchWs (g1 g2 : String) (s : List Char) :
    Option ((String × String × String) × List Char) :=
  match s with
  | [] => matchOpenParen g1 g2 []
  | c :: rest =>
    if pyIsSpace c then
      match matchWs g1 g2 rest with
      | some r => some r
      | none => matchOpenParen g1 g2 (c :: rest)
    else matchOpenParen g1 g2 (c :: rest)

/-- Match `(_once)?\s*\(?['"]([^'"]+)['"]\)?`: greedy optional `_once` with
backtracking to the empty alternative. -/
def matchOnce (g1 : String) (s : List Char) :
    Option ((String × String × String) × List Char) :=
  match s with
  | '_' :: 'o' :: 'n' :: 'c' :: 'e' :: rest =>
    match matchWs g1 "_once" rest with
    | some r => some r
    | none => matchWs g1 "" ('_' :: 'o' :: 'n' :: 'c' :: 'e' :: rest)
  | s => matchWs g1 "" s

/-- Try to match the whole PHP include pattern at the head of `s`,
returning the triple of captured groups and the remainder after the match. -/
def phpMatchAt (s : List Char) :
    Option ((String × String × String) × List Char) :=
  match s with
  | 'i' :: 'n' :: 'c' :: 'l' :: 'u' :: 'd' :: 'e' :: rest => matchOnce "include" rest
  | 'r' :: 'e' :: 'q' :: 'u' :: 'i' :: 'r' :: 'e' :: rest => matchOnce "require" rest
  | _ => none

/-- Python `re.findall(PHP_INCLUDE_PATTERN, content)`: scan left to right; at each
position try a match, emit its groups and resume after it, otherwise
advance one character.  Fuelled by the input length, which suffices because
every match consumes at least one character (`phpMatchAt_length` below). -/
def phpFindAllAux (fuel : Nat) (s : List Char) : List (String × String × String) :=
  match fuel with
  | 0 => []
  | fuel + 1 =>
    match phpMatchAt s with
    | some (t, r) => t :: phpFindAllAux fuel r
    | none =>
      match s with
      | [] => []
      | _ :: rest => phpFindAllAux fuel rest

def phpFindAll (s : List Char) : List (String × String × String) :=
  phpFindAllAux s.length s

/-! ### The SQL include pattern

`SQL_INCLUDE_PATTERN = \\i\s+([^;\s]+)` (a literal backslash, `i`, then
whitespace and the captured token).  Both `\s+` and `[^;\s]+` are greedy;
shortening `\s+` by backtracking would put a whitespace character in front
of `[^;\s]+`, which that class rejects, so the maximal scans are exact. -/

/-- The character class `[^;\s]`: neither a semicolon nor whitespace. -/
def sqlTokenChar (c : Char) : Bool := !(c = ';') && !(pyIsSpace c)

def sqlMatchAt (s : List Char) : Option (String × List Char) :=
  match s with
  | '\\' :: 'i' :: rest =>
    if (rest.takeWhile pyIsSpace).isEmpty then none
    else if ((rest.dropWhile pyIsSpace).takeWhile sqlTokenChar).isEmpty then none
    else some (String.mk ((rest.dropWhile pyIsSpace).takeWhile sqlTokenChar),
               (rest.dropWhile pyIsSpace).dropWhile sqlTokenChar)
  | _ => none

/-- Python `re.findall(SQL_INCLUDE_PATTERN, content)`, fuelled like `phpFindAllAux`. -/
def sqlFindAllAux (fuel : Nat) (s : List Char) : List String :=
  match fuel with
  | 0 => []
  | fuel + 1 =>
    match sqlMatchAt s with
    | some (t, r) => t :: sqlFindAllAux fuel r
    | none =>
      match s with
      | [] => []
      | _ :: rest => sqlFindAllAux fuel rest

def sqlFindAll (s : List Char) : List String :=
  sqlFindAllAux s.length s

/-- Model of `find_references_in_content` (lines 91-108): dispatch on the lower-cased
extension; PHP keeps the third captured group `m[2]` of each match, SQL
keeps the stripped captured token, anything else yields `[]`. -/
def find_references_in_content (file_path content : String) : List String :=
  let ext := pyLower (splitext file_path).2
  if ext = ".php" then
    (phpFindAll content.toList).map (fun m => m.2.2)
  else if ext = ".sql" then
    (sqlFindAll content.toList).map (fun m => pyStrip m)
  else []

/-- Example PHP content from the spec:
`include("a/b.php"); require_once('c.php');` -/
def phpExample : String :=
  "include(\"a/b.php\"); require_once(" ++ sqStr ++ "c.php" ++ sqStr ++ ");"

/-- PHP content with a duplicated include, to watch duplicates being kept. -/
def phpDupExample : String :=
  "include " ++ sqStr ++ "lib.php" ++ sqStr ++ "; include " ++ sqStr ++ "lib.php" ++ sqStr ++ ";"


/-! ### Python dictionaries as association lists

`file_docs` and `file_references` are Python dicts keyed by file path.  A
dict is modelled as an association list in insertion order: assignment
replaces the value in place when the key exists and appends otherwise,
exactly as Python dict assignment behaves. -/

def dictInsert {α : Type} (k : String) (v : α) (l : List (String × α)) :
    List (String × α) :=
  if l.any (fun p => p.1 = k) then
    l.map (fun p => if p.1 = k then (k, v) else p)
  else l ++ [(k, v)]

/-- Python `d.keys()` in insertion order. -/
def dictKeys {α : Type} (l : List (String × α)) : List String := l.map Prod.fst

/-- Python `d.get(k)`: the value at the first (and in our use only) binding of `k`. -/
def dictGet? {α : Type} (l : List (String × α)) (k : String) : Option α :=
  (l.find? (fun p => p.1 = k)).map Prod.snd

/-- Lexicographic order on character lists by code point: Python's string
comparison. -/
def charListLe : List Char → List Char → Bool
  | [], _ => true
  | _ :: _, [] => false
  | x :: xs, y :: ys => if x = y then charListLe xs ys else decide (x < y)

/-- Python `<=` on strings: code-point lexicographic. -/
def strLe (a b : String) : Bool := charListLe a.toList b.toList

/-- The order relation `sorted` uses, as a `Prop`. -/
def StrLeRel (a b : String) : Prop := strLe a b = true

instance : DecidableRel StrLeRel := fun a b => instDecidableEqBool (strLe a b) true

/-- Python `sorted` on strings: a stable ascending sort by `StrLeRel`. -/
def sortStrings (l : List String) : List String :=
  List.insertionSort StrLeRel l

/-- Python `"\n".join(lines)`. -/
def joinLines : List String → String
  | [] => ""
  | [x] => x
  | x :: xs => x ++ "\n" ++ joinLines xs

/-! ### `generate_overview_document` (lines 110-141) -/

/-- The four fixed lines appended before the per-file sections. -/
def overviewHeader : List String :=
  ["# Project Overview", "",
   "This document provides a high-level summary of the codebase, including file-by-file documentation and references.",
   ""]

/-- The lines the loop body of `generate_overview_document` appends for one
path: heading, blank, `**Documentation**`, blank, stripped doc text, blank,
and, only when `file_references.get(path, [])` is non-empty, the references
block.  (`file_docs[path]` is only ever read at a key of `file_docs`, where
`dictGet?` returns `some`; the `getD ""` default is never exercised.) -/
def sectionLines (file_docs : List (String × String))
    (file_references : List (String × List String)) (path : String) :
    List String :=
  let doc_text := (dictGet? file_docs path).getD ""
  let refs := (dictGet? file_references path).getD []
  ["## " ++ path, "", "**Documentation**", "", pyStrip doc_text, ""] ++
  (if refs.isEmpty then [] else
    ["**References / Includes**", ""] ++ refs.map (fun r => "- " ++ r) ++ [""])

/-- Model of `generate_overview_document`: fixed header, then the section lines of
every key of `file_docs` in `sorted` order, joined with newlines. -/
def generate_overview_document (file_docs : List (String × String))
    (file_references : List (String × List String)) : String :=
  joinLines (overviewHeader ++
    (sortStrings (dictKeys file_docs)).flatMap (sectionLines file_docs file_references))

/-! ### Configuration constants (lines 10-25) -/

def LOCAL_REPO_PATH : String := "./"

def FILE_EXTENSIONS : List String := [".sql", ".sh", ".php"]

def OVERVIEW_FILENAME : String := "PROJECT_OVERVIEW.md"

/-! ### The orchestrator `main` (lines 147-190)

Effects are abstracted as oracles: `files` is what `traverse_local_files`
returned, `readResult` what `read_file_content` does for a path (`.error`
models a raised exception), `docResult` what
`generate_documentation_with_openai` does for a path and content, and
`writeResult` what the write inside `save_file_in_same_directory` does for
an output path and content.  The run result records the two dictionaries
and the observable events: documentation requests issued (one outbound
network call each), successful per-file writes, overview writes, and the
early-exit message. -/

structure Env where
  files : List String
  readResult : String → Except String String
  docResult : String → String → Except String String
  writeResult : String → String → Except String Unit

structure RunState where
  file_docs : List (String × String)
  file_references : List (String × List String)
  networkCalls : List String
  fileWrites : List (String × String)

structure RunResult where
  state : RunState
  overviewWrites : List (String × String)
  noRelevantMessage : Bool

def initState : RunState := ⟨[], [], [], []⟩

/-- The body of the `for file_path in relevant_files` loop, lines 164-181.
The `try` block reads, requests documentation (`file_docs[file_path] = ...`),
scans references (`file_references[file_path] = refs`), and only then
writes the per-file doc; `except Exception` catches a failure at any of
these steps and falls through to the next file, keeping whatever updates
already happened. -/
def processFile (env : Env) (st : RunState) (file_path : String) : RunState :=
  match env.readResult file_path with
  | .error _ => st
  | .ok content =>
    let st1 : RunState := { st with networkCalls := st.networkCalls ++ [file_path] }
    match env.docResult file_path content with
    | .error _ => st1
    | .ok doc_text =>
      let st2 : RunState := { st1 with file_docs := dictInsert file_path doc_text st1.file_docs }
      let refs := find_references_in_content file_path content
      let st3 : RunState := { st2 with file_references := dictInsert file_path refs st2.file_references }
      match env.writeResult (save_output_path file_path) doc_text with
      | .error _ => st3
      | .ok _ => { st3 with fileWrites := st3.fileWrites ++ [(save_output_path file_path, doc_text)] }

/-- Lines 151-153: keep the files whose lower-cased extension is in
`FILE_EXTENSIONS`. -/
def relevantFiles (files : List String) : List String :=
  files.filter (fun f => FILE_EXTENSIONS.contains (pyLower (splitext f).2))

/-- Model of `main`: filter, early-exit on an empty relevant list, otherwise process
every file and unconditionally write the overview to
`os.path.join(LOCAL_REPO_PATH, OVERVIEW_FILENAME)`. -/
def mainRun (env : Env) : RunResult :=
  let relevant_files := relevantFiles env.files
  if relevant_files.isEmpty then
    { state := initState, overviewWrites := [], noRelevantMessage := true }
  else
    let final := relevant_files.foldl (processFile env) initState
    let overview_text := generate_overview_document final.file_docs final.file_references
    { state := final
      overviewWrites := [(pyJoin LOCAL_REPO_PATH OVERVIEW_FILENAME, overview_text)]
      noRelevantMessage := false }

/-- Whether `read_file_content` succeeds for `fp` (no exception). -/
def readOk (env : Env) (fp : String) : Bool :=
  match env.readResult fp with
  | .ok _ => true
  | .error _ => false

/-- Whether both the read and the documentation request succeed for `fp`:
exactly the condition under which the loop body reaches the two dictionary
assignments. -/
def docSuccess (env : Env) (fp : String) : Bool :=
  match env.readResult fp with
  | .error _ => false
  | .ok content =>
    match env.docResult fp content with
    | .error _ => false
    | .ok _ => true

/-- The doc text recorded for `fp` when both read and request succeed. -/
def docTextOf (env : Env) (fp : String) : String :=
  match env.readResult fp with
  | .error _ => ""
  | .ok content =>
    match env.docResult fp content with
    | .error _ => ""
    | .ok t => t

/-- The reference list recorded for `fp` (scanned from the read content). -/
def refsOf (env : Env) (fp : String) : List String :=
  match env.readResult fp with
  | .error _ => []
  | .ok content => find_references_in_content fp content

/-! ### Concrete environments used by witnesses and counterexamples -/

/-- One relevant file whose read and documentation request succeed but whose
per-file write raises. -/
def envC1 : Env :=
  ⟨["a.sql"], fun _ => .ok "", fun _ _ => .ok "DOC", fun _ _ => .error "disk full"⟩

/-- One relevant file for which every per-file step raises. -/
def envC2w : Env :=
  ⟨["a.sql"], fun _ => .error "io", fun _ _ => .error "net", fun _ _ => .error "w"⟩

/-- A walk that contains no relevant file but does contain a text file. -/
def envC3w : Env :=
  ⟨["notes.txt", "src/a.sql"], fun _ => .ok "", fun _ _ => .ok "text", fun _ _ => .ok ()⟩

/-- A walk with no relevant files at all. -/
def envC4w : Env :=
  ⟨["README.md", "notes.txt"], fun _ => .ok "", fun _ _ => .ok "text", fun _ _ => .ok ()⟩

/-- Two relevant files whose documentation requests fail for the first and
succeed for the second. -/
def envC1w : Env :=
  ⟨["x.sql", "y.sql"], fun _ => .ok "",
    fun fp _ => if fp = "x.sql" then .error "boom" else .ok "docY",
    fun _ _ => .error "ioerr"⟩

/-- Two source files in the same directory with the same base name and
different allow-listed extensions, everything succeeding. -/
def envC10 : Env :=
  ⟨["dir/x.sql", "dir/x.php"], fun _ => .ok "",
    fun fp _ => .ok ("doc of " ++ fp), fun _ _ => .ok ()⟩


/-! ### Helper lemmas

First: every successful pattern match consumes at least one character, so
fuelling the findall scans with the input length loses nothing. -/

theorem dropWhile_length_le {α : Type} (p : α → Bool) (l : List α) :
    (l.dropWhile p).length ≤ l.length := by
  induction l with
  | nil => simp
  | cons c rest ih =>
    by_cases h : p c
    · rw [List.dropWhile_cons, if_pos h]
      exact ih.trans (by simp)
    · rw [List.dropWhile_cons, if_neg h]

theorem dropCloseParen_length (r : List Char) :
    (dropCloseParen r).length ≤ r.length := by
  unfold dropCloseParen
  split <;> simp

theorem scanGroup3_length (s : List Char) :
    ∀ (acc g r : List Char), scanGroup3 acc s = some (g, r) → r.length < s.length := by
  induction s with
  | nil => intro acc g r h; simp [scanGroup3] at h
  | cons c rest ih =>
    intro acc g r h
    simp only [scanGroup3] at h
    split at h
    · split at h
      · simp at h
      · simp only [Option.some.injEq, Prod.mk.injEq] at h
        obtain ⟨-, hr⟩ := h
        subst hr
        simp
    · have := ih (c :: acc) g r h
      simp only [List.length_cons]
      omega

theorem matchQuoted_length (g1 g2 : String) (s : List Char)
    (t : String × String × String) (r : List Char)
    (h : matchQuoted g1 g2 s = some (t, r)) : r.length < s.length := by
  cases s with
  | nil => simp [matchQuoted] at h
  | cons c rest =>
    simp only [matchQuoted] at h
    split at h
    · split at h
      · rename_i g r2 heq
        simp only [Option.some.injEq, Prod.mk.injEq] at h
        obtain ⟨-, hr⟩ := h
        subst hr
        have h1 := scanGroup3_length rest [] g r2 heq
        have h2 := dropCloseParen_length r2
        simp only [List.length_cons]
        omega
      · simp at h
    · simp at h

theorem matchOpenParen_length (g1 g2 : String) (s : List Char)
    (t : String × String × String) (r : List Char)
    (h : matchOpenParen g1 g2 s = some (t, r)) : r.length < s.length := by
  cases s with
  | nil => simp [matchOpenParen, matchQuoted] at h
  | cons c rest =>
    simp only [matchOpenParen] at h
    split at h
    · split at h
      · rename_i r' heq
        simp only [Option.some.injEq] at h
        subst h
        have := matchQuoted_length g1 g2 rest t r heq
        simp only [List.length_cons]
        omega
      · exact matchQuoted_length g1 g2 (c :: rest) t r h
    · exact matchQuoted_length g1 g2 (c :: rest) t r h

theorem matchWs_length (g1 g2 : String) (s : List Char) :
    ∀ (t : String × String × String) (r : List Char),
      matchWs g1 g2 s = some (t, r) → r.length < s.length := by
  induction s with
  | nil => intro t r h; simp [matchWs, matchOpenParen, matchQuoted] at h
  | cons c rest ih =>
    intro t r h
    simp only [matchWs] at h
    split at h
    · split at h
      · rename_i r' heq
        simp only [Option.some.injEq] at h
        subst h
        have := ih t r heq
        simp only [List.length_cons]
        omega
      · exact matchOpenParen_length g1 g2 (c :: rest) t r h
    · exact matchOpenParen_length g1 g2 (c :: rest) t r h

theorem matchOnce_length (g1 : String) (s : List Char)
    (t : String × String × String) (r : List Char)
    (h : matchOnce g1 s = some (t, r)) : r.length < s.length := by
  unfold matchOnce at h
  split at h
  · rename_i rest
    split at h
    · rename_i r' heq
      simp only [Option.some.injEq] at h
      subst h
      have := matchWs_length g1 "_once" rest t r heq
      simp only [List.length_cons]
      omega
    · exact matchWs_length g1 "" _ t r h
  · exact matchWs_length g1 "" _ t r h

theorem phpMatchAt_length (s : List Char) (t : String × String × String)
    (r : List Char) (h : phpMatchAt s = some (t, r)) : r.length < s.length := by
  unfold phpMatchAt at h
  split at h
  · rename_i rest
    have := matchOnce_length "include" rest t r h
    simp only [List.length_cons]
    omega
  · rename_i rest
    have := matchOnce_length "require" rest t r h
    simp only [List.length_cons]
    omega
  · simp at h

theorem sqlMatchAt_length (s : List Char) (t : String) (r : List Char)
    (h : sqlMatchAt s = some (t, r)) : r.length < s.length := by
  unfold sqlMatchAt at h
  split at h
  · rename_i rest
    split at h
    · simp at h
    · split at h
      · simp at h
      · simp only [Option.some.injEq, Prod.mk.injEq] at h
        obtain ⟨-, hr⟩ := h
        subst hr
        have h1 : (rest.dropWhile pyIsSpace).length ≤ rest.length :=
          dropWhile_length_le pyIsSpace rest
        have h2 : ((rest.dropWhile pyIsSpace).dropWhile sqlTokenChar).length ≤
            (rest.dropWhile pyIsSpace).length :=
          dropWhile_length_le sqlTokenChar (rest.dropWhile pyIsSpace)
        simp only [List.length_cons]
        omega
  · simp at h

/-- Fuel above the input length is irrelevant for the PHP findall scan. -/
theorem phpFindAllAux_fuel (f1 : Nat) :
    ∀ (f2 : Nat) (s : List Char), s.length ≤ f1 → s.length ≤ f2 →
      phpFindAllAux f1 s = phpFindAllAux f2 s := by
  induction f1 with
  | zero =>
    intro f2 s h1 h2
    have hs : s = [] := List.eq_nil_of_length_eq_zero (Nat.le_zero.mp h1)
    subst hs
    cases f2 <;> rfl
  | succ f1 ih =>
    intro f2 s h1 h2
    cases f2 with
    | zero =>
      have hs : s = [] := List.eq_nil_of_length_eq_zero (Nat.le_zero.mp h2)
      subst hs
      rfl
    | succ f2 =>
      simp only [phpFindAllAux]
      cases hm : phpMatchAt s with
      | some pr =>
        obtain ⟨t, r⟩ := pr
        have hr := phpMatchAt_length s t r hm
        exact congrArg (fun l => t :: l) (ih f2 r (by omega) (by omega))
      | none =>
        cases s with
        | nil => rfl
        | cons c rest =>
          simp only [List.length_cons] at h1 h2
          exact ih f2 rest (by omega) (by omega)

/-- Fuel above the input length is irrelevant for the SQL findall scan. -/
theorem sqlFindAllAux_fuel (f1 : Nat) :
    ∀ (f2 : Nat) (s : List Char), s.length ≤ f1 → s.length ≤ f2 →
      sqlFindAllAux f1 s = sqlFindAllAux f2 s := by
  induction f1 with
  | zero =>
    intro f2 s h1 h2
    have hs : s = [] := List.eq_nil_of_length_eq_zero (Nat.le_zero.mp h1)
    subst hs
    cases f2 <;> rfl
  | succ f1 ih =>
    intro f2 s h1 h2
    cases f2 with
    | zero =>
      have hs : s = [] := List.eq_nil_of_length_eq_zero (Nat.le_zero.mp h2)
      subst hs
      rfl
    | succ f2 =>
      simp only [sqlFindAllAux]
      cases hm : sqlMatchAt s with
      | some pr =>
        obtain ⟨t, r⟩ := pr
        have hr := sqlMatchAt_length s t r hm
        exact congrArg (fun l => t :: l) (ih f2 r (by omega) (by omega))
      | none =>
        cases s with
        | nil => rfl
        | cons c rest =>
          simp only [List.length_cons] at h1 h2
          exact ih f2 rest (by omega) (by omega)

/-! ### The sort order is total and transitive -/

theorem charListLe_total (a : List Char) : ∀ b : List Char,
    charListLe a b = true ∨ charListLe b a = true := by
  induction a with
  | nil => intro b; left; rfl
  | cons x xs ih =>
    intro b
    cases b with
    | nil => right; rfl
    | cons y ys =>
      by_cases hxy : x = y
      · subst hxy
        rcases ih ys with h | h
        · left; simpa [charListLe] using h
        · right; simpa [charListLe] using h
      · rcases lt_or_gt_of_ne hxy with h | h
        · left; simp [charListLe, hxy, h]
        · right; simp [charListLe, Ne.symm hxy, h]

theorem charListLe_trans (a : List Char) : ∀ b c : List Char,
    charListLe a b = true → charListLe b c = true → charListLe a c = true := by
  induction a with
  | nil => intro b c _ _; rfl
  | cons x xs ih =>
    intro b c hab hbc
    cases b with
    | nil => simp [charListLe] at hab
    | cons y ys =>
      cases c with
      | nil => simp [charListLe] at hbc
      | cons z zs =>
        by_cases hxy : x = y <;> by_cases hyz : y = z
        · subst hxy; subst hyz
          simp only [charListLe, if_pos rfl] at hab hbc ⊢
          exact ih ys zs hab hbc
        · subst hxy
          simp only [charListLe, if_pos rfl, if_neg hyz] at hbc ⊢
          exact hbc
        · subst hyz
          simp only [charListLe, if_neg hxy] at hab ⊢
          exact hab
        · simp only [charListLe, if_neg hxy, if_neg hyz, decide_eq_true_eq] at hab hbc
          have hxz : x < z := lt_trans hab hbc
          simp [charListLe, ne_of_lt hxz, hxz]

instance : IsTotal String StrLeRel :=
  ⟨fun a b => charListLe_total a.toList b.toList⟩

instance : IsTrans String StrLeRel :=
  ⟨fun a b c => charListLe_trans a.toList b.toList c.toList⟩

/-- Membership is preserved by the sort. -/
theorem mem_sortStrings (x : String) (l : List String) :
    x ∈ sortStrings l ↔ x ∈ l :=
  (List.perm_insertionSort StrLeRel l).mem_iff

/-! ### Dictionary lemmas -/

theorem dictKeys_map_replace {α : Type} (k : String) (v : α)
    (l : List (String × α)) :
    dictKeys (l.map (fun p => if p.1 = k then (k, v) else p)) = dictKeys l := by
  induction l with
  | nil => rfl
  | cons p ps ih =>
    simp only [List.map_cons, dictKeys] at ih ⊢
    by_cases h : p.1 = k
    · simp only [if_pos h, List.map_cons]
      rw [h]
      exact congrArg (fun t => k :: t) ih
    · simp only [if_neg h, List.map_cons]
      exact congrArg (fun t => p.1 :: t) ih

theorem mem_dictKeys_dictInsert {α : Type} (k x : String) (v : α)
    (l : List (String × α)) :
    x ∈ dictKeys (dictInsert k v l) ↔ x = k ∨ x ∈ dictKeys l := by
  unfold dictInsert
  split
  · rename_i hany
    rw [dictKeys_map_replace]
    constructor
    · exact Or.inr
    · rintro (rfl | hx)
      · rcases List.any_eq_true.mp hany with ⟨p, hp, hpk⟩
        have hk : p.1 = x := by simpa using hpk
        exact hk ▸ List.mem_map_of_mem Prod.fst hp
      · exact hx
  · simp only [dictKeys, List.map_append, List.mem_append, List.map_cons,
      List.map_nil, List.mem_singleton, List.mem_cons, List.not_mem_nil, or_false]
    exact or_comm

/-! ### One step of the per-file loop -/

theorem processFile_networkCalls (env : Env) (st : RunState) (fp : String) :
    (processFile env st fp).networkCalls =
      if readOk env fp then st.networkCalls ++ [fp] else st.networkCalls := by
  unfold processFile readOk
  cases hr : env.readResult fp with
  | error e => simp [hr]
  | ok content =>
    cases hd : env.docResult fp content with
    | error e => simp [hr, hd]
    | ok doc =>
      cases hw : env.writeResult (save_output_path fp) doc with
      | error e => simp [hr, hd, hw]
      | ok u => simp [hr, hd, hw]

theorem processFile_file_docs (env : Env) (st : RunState) (fp : String) :
    (processFile env st fp).file_docs =
      if docSuccess env fp then dictInsert fp (docTextOf env fp) st.file_docs
      else st.file_docs := by
  unfold processFile docSuccess docTextOf
  cases hr : env.readResult fp with
  | error e => simp [hr]
  | ok content =>
    cases hd : env.docResult fp content with
    | error e => simp [hr, hd]
    | ok doc =>
      cases hw : env.writeResult (save_output_path fp) doc with
      | error e => simp [hr, hd, hw]
      | ok u => simp [hr, hd, hw]

theorem processFile_file_references (env : Env) (st : RunState) (fp : String) :
    (processFile env st fp).file_references =
      if docSuccess env fp then dictInsert fp (refsOf env fp) st.file_references
      else st.file_references := by
  unfold processFile docSuccess refsOf
  cases hr : env.readResult fp with
  | error e => simp [hr]
  | ok content =>
    cases hd : env.docResult fp content with
    | error e => simp [hr, hd]
    | ok doc =>
      cases hw : env.writeResult (save_output_path fp) doc with
      | error e => simp [hr, hd, hw]
      | ok u => simp [hr, hd, hw]

/-! ### Invariants of the whole loop -/

theorem foldl_docs_mem (env : Env) (l : List String) :
    ∀ (st : RunState) (x : String),
      (x ∈ dictKeys (List.foldl (processFile env) st l).file_docs ↔
        x ∈ dictKeys st.file_docs ∨ (x ∈ l ∧ docSuccess env x = true)) := by
  induction l with
  | nil => intro st x; simp
  | cons f fs ih =>
    intro st x
    rw [List.foldl_cons, ih, processFile_file_docs]
    by_cases h : docSuccess env f = true
    · rw [if_pos h, mem_dictKeys_dictInsert]
      simp only [List.mem_cons]
      constructor
      · rintro ((rfl | hx) | ⟨hm, hs⟩)
        · exact Or.inr ⟨Or.inl rfl, h⟩
        · exact Or.inl hx
        · exact Or.inr ⟨Or.inr hm, hs⟩
      · rintro (hx | ⟨rfl | hm, hs⟩)
        · exact Or.inl (Or.inr hx)
        · exact Or.inl (Or.inl rfl)
        · exact Or.inr ⟨hm, hs⟩
    · rw [if_neg h]
      simp only [List.mem_cons]
      constructor
      · rintro (hx | ⟨hm, hs⟩)
        · exact Or.inl hx
        · exact Or.inr ⟨Or.inr hm, hs⟩
      · rintro (hx | ⟨rfl | hm, hs⟩)
        · exact Or.inl hx
        · exact absurd hs h
        · exact Or.inr ⟨hm, hs⟩

theorem foldl_refs_mem (env : Env) (l : List String) :
    ∀ (st : RunState) (x : String),
      (x ∈ dictKeys (List.foldl (processFile env) st l).file_references ↔
        x ∈ dictKeys st.file_references ∨ (x ∈ l ∧ docSuccess env x = true)) := by
  induction l with
  | nil => intro st x; simp
  | cons f fs ih =>
    intro st x
    rw [List.foldl_cons, ih, processFile_file_references]
    by_cases h : docSuccess env f = true
    · rw [if_pos h, mem_dictKeys_dictInsert]
      simp only [List.mem_cons]
      constructor
      · rintro ((rfl | hx) | ⟨hm, hs⟩)
        · exact Or.inr ⟨Or.inl rfl, h⟩
        · exact Or.inl hx
        · exact Or.inr ⟨Or.inr hm, hs⟩
      · rintro (hx | ⟨rfl | hm, hs⟩)
        · exact Or.inl (Or.inr hx)
        · exact Or.inl (Or.inl rfl)
        · exact Or.inr ⟨hm, hs⟩
    · rw [if_neg h]
      simp only [List.mem_cons]
      constructor
      · rintro (hx | ⟨hm, hs⟩)
        · exact Or.inl hx
        · exact Or.inr ⟨Or.inr hm, hs⟩
      · rintro (hx | ⟨rfl | hm, hs⟩)
        · exact Or.inl hx
        · exact absurd hs h
        · exact Or.inr ⟨hm, hs⟩

theorem foldl_calls_mem (env : Env) (l : List String) :
    ∀ (st : RunState) (x : String),
      (x ∈ (List.foldl (processFile env) st l).networkCalls ↔
        x ∈ st.networkCalls ∨ (x ∈ l ∧ readOk env x = true)) := by
  induction l with
  | nil => intro st x; simp
  | cons f fs ih =>
    intro st x
    rw [List.foldl_cons, ih, processFile_networkCalls]
    by_cases h : readOk env f = true
    · rw [if_pos h]
      simp only [List.mem_append, List.mem_cons, List.not_mem_nil, or_false]
      constructor
      · rintro ((hx | rfl) | ⟨hm, hs⟩)
        · exact Or.inl hx
        · exact Or.inr ⟨Or.inl rfl, h⟩
        · exact Or.inr ⟨Or.inr hm, hs⟩
      · rintro (hx | ⟨rfl | hm, hs⟩)
        · exact Or.inl (Or.inl hx)
        · exact Or.inl (Or.inr rfl)
        · exact Or.inr ⟨hm, hs⟩
    · rw [if_neg h]
      simp only [List.mem_cons]
      constructor
      · rintro (hx | ⟨hm, hs⟩)
        · exact Or.inl hx
        · exact Or.inr ⟨Or.inr hm, hs⟩
      · rintro (hx | ⟨rfl | hm, hs⟩)
        · exact Or.inl hx
        · exact absurd hs h
        · exact Or.inr ⟨hm, hs⟩

theorem mainRun_state_empty (env : Env)
    (hemp : (relevantFiles env.files).isEmpty = true) :
    (mainRun env).state = initState := by
  simp [mainRun, hemp]

theorem mainRun_state_eq (env : Env)
    (hne : (relevantFiles env.files).isEmpty = false) :
    (mainRun env).state =
      List.foldl (processFile env) initState (relevantFiles env.files) := by
  simp [mainRun, hne]

/-! ### The claims -/

/-- C1 (counterexample): in `envC1` the per-file write for `"a.sql"` raises
(`writeResult` is an error and no per-file write is recorded), yet when the
overview is assembled the file is present in both the docs mapping and the
references mapping — contradicting the claim that a file whose
per-file-documentation write raises is absent from both mappings. -/
theorem write_failure_leaves_file_in_mappings :
    envC1.writeResult (save_output_path "a.sql") "DOC" = .error "disk full" ∧
    (mainRun envC1).state.fileWrites = [] ∧
    "a.sql" ∈ dictKeys (mainRun envC1).state.file_docs ∧
    "a.sql" ∈ dictKeys (mainRun envC1).state.file_references :=
  ⟨rfl, by decide, by decide, by decide⟩

/-- C1 (amended): a file is a key of the docs mapping, and of the references
mapping, when the overview is assembled if and only if it survived the
extension filter and its read and documentation request both succeeded —
so a failure while reading or requesting documentation leaves the file out
of both mappings (and out of the overview's section list, which enumerates
the sorted docs keys), while a failure during the per-file write does not
remove it; every other file is processed independently of the failure. -/
theorem per_file_failure_mapping_keys (env : Env) (f : String) :
    (f ∈ dictKeys (mainRun env).state.file_docs ↔
      f ∈ relevantFiles env.files ∧ docSuccess env f = true) ∧
    (f ∈ dictKeys (mainRun env).state.file_references ↔
      f ∈ relevantFiles env.files ∧ docSuccess env f = true) ∧
    (f ∈ sortStrings (dictKeys (mainRun env).state.file_docs) ↔
      f ∈ dictKeys (mainRun env).state.file_docs) := by
  refine ⟨?_, ?_, mem_sortStrings _ _⟩
  all_goals {
    by_cases hemp : (relevantFiles env.files).isEmpty = true
    · have hnil : relevantFiles env.files = [] := List.isEmpty_iff.mp hemp
      rw [mainRun_state_empty env hemp]
      simp [initState, dictKeys, hnil]
    · rw [mainRun_state_eq env (by simpa using hemp)]
      first
      | rw [foldl_docs_mem env (relevantFiles env.files) initState f]
      | rw [foldl_refs_mem env (relevantFiles env.files) initState f]
      simp [initState, dictKeys]
  }

/-- C1 (illustration of the amended claim on `envC1w`): the Documentation
Requester fails for `"x.sql"` and succeeds for `"y.sql"` (whose write then
fails), and the assembled mappings contain `"y.sql"` and not `"x.sql"`. -/
theorem per_file_failure_mapping_keys_example :
    docSuccess envC1w "x.sql" = false ∧
    docSuccess envC1w "y.sql" = true ∧
    "x.sql" ∉ dictKeys (mainRun envC1w).state.file_docs ∧
    "y.sql" ∈ dictKeys (mainRun envC1w).state.file_docs ∧
    "x.sql" ∉ dictKeys (mainRun envC1w).state.file_references ∧
    "y.sql" ∈ dictKeys (mainRun envC1w).state.file_references := by
  refine ⟨by decide, by decide, ?_, ?_, ?_, ?_⟩ <;> decide

/-- C2: as soon as at least one file survives the filter, exactly one
overview write happens, at the fixed path `"./PROJECT_OVERVIEW.md"`, with
the document assembled from the final mappings — no matter how many
per-file attempts failed. -/
theorem overview_written_once (env : Env) (h : relevantFiles env.files ≠ []) :
    (mainRun env).overviewWrites =
      [("./PROJECT_OVERVIEW.md",
        generate_overview_document
          (List.foldl (processFile env) initState (relevantFiles env.files)).file_docs
          (List.foldl (processFile env) initState (relevantFiles env.files)).file_references)] := by
  have hne : (relevantFiles env.files).isEmpty = false := by
    simp [h]
  have hjoin : pyJoin LOCAL_REPO_PATH OVERVIEW_FILENAME = "./PROJECT_OVERVIEW.md" := by
    decide
  simp only [mainRun, hne, Bool.false_eq_true, if_false, hjoin]

theorem overview_written_once_witness :
    (mainRun envC2w).overviewWrites =
      [("./PROJECT_OVERVIEW.md",
        generate_overview_document
          (List.foldl (processFile envC2w) initState (relevantFiles envC2w.files)).file_docs
          (List.foldl (processFile envC2w) initState (relevantFiles envC2w.files)).file_references)] :=
  overview_written_once envC2w (by decide)

/-- C3: a file whose lower-cased extension is not in `FILE_EXTENSIONS` is
never passed to the Documentation Requester (it is never the subject of a
network call) and is never a key of either mapping. -/
theorem extension_filter_excludes (env : Env) (f : String)
    (h : pyLower (splitext f).2 ∉ FILE_EXTENSIONS) :
    f ∉ (mainRun env).state.networkCalls ∧
    f ∉ dictKeys (mainRun env).state.file_docs ∧
    f ∉ dictKeys (mainRun env).state.file_references := by
  have hrel : f ∉ relevantFiles env.files := by
    intro hf
    exact h (List.elem_iff.mp (List.mem_filter.mp hf).2)
  by_cases hemp : (relevantFiles env.files).isEmpty = true
  · rw [mainRun_state_empty env hemp]
    simp [initState, dictKeys]
  · rw [mainRun_state_eq env (by simpa using hemp)]
    refine ⟨?_, ?_, ?_⟩ <;> intro hmem
    · rcases (foldl_calls_mem env (relevantFiles env.files) initState f).mp hmem with
        hx | ⟨hx, -⟩
      · simp [initState] at hx
      · exact hrel hx
    · rcases (foldl_docs_mem env (relevantFiles env.files) initState f).mp hmem with
        hx | ⟨hx, -⟩
      · simp [initState, dictKeys] at hx
      · exact hrel hx
    · rcases (foldl_refs_mem env (relevantFiles env.files) initState f).mp hmem with
        hx | ⟨hx, -⟩
      · simp [initState, dictKeys] at hx
      · exact hrel hx

theorem extension_filter_excludes_witness :
    "notes.txt" ∉ (mainRun envC3w).state.networkCalls ∧
    "notes.txt" ∉ dictKeys (mainRun envC3w).state.file_docs ∧
    "notes.txt" ∉ dictKeys (mainRun envC3w).state.file_references :=
  extension_filter_excludes envC3w "notes.txt" (by decide)

/-- C4: with an empty filtered list the run exits early with the
user-visible message: no network call, no per-file write, no overview. -/
theorem empty_filter_early_exit (env : Env) (h : relevantFiles env.files = []) :
    (mainRun env).state.networkCalls = [] ∧
    (mainRun env).state.fileWrites = [] ∧
    (mainRun env).overviewWrites = [] ∧
    (mainRun env).noRelevantMessage = true := by
  simp [mainRun, h, initState]

theorem empty_filter_early_exit_witness :
    (mainRun envC4w).state.networkCalls = [] ∧
    (mainRun envC4w).state.fileWrites = [] ∧
    (mainRun envC4w).overviewWrites = [] ∧
    (mainRun envC4w).noRelevantMessage = true :=
  empty_filter_early_exit envC4w (by decide)

/-- C5: for a path with lower-cased extension `".php"` the Reference
Scanner returns exactly the third captured group of each findall match of
the PHP include pattern, in order, duplicates preserved; on the spec's
example content it returns `["a/b.php", "c.php"]` and it keeps the
duplicate in `phpDupExample`. -/
theorem php_reference_scanner (p c : String)
    (hp : pyLower (splitext p).2 = ".php") :
    find_references_in_content p c = (phpFindAll c.toList).map (fun m => m.2.2) ∧
    find_references_in_content "x.php" phpExample = ["a/b.php", "c.php"] ∧
    find_references_in_content "x.php" phpDupExample = ["lib.php", "lib.php"] := by
  refine ⟨?_, by decide, by decide⟩
  simp [find_references_in_content, hp]

theorem php_reference_scanner_witness :
    (find_references_in_content "x.php" phpExample =
      (phpFindAll phpExample.toList).map (fun m => m.2.2)) ∧
    find_references_in_content "x.php" phpExample = ["a/b.php", "c.php"] ∧
    find_references_in_content "x.php" phpDupExample = ["lib.php", "lib.php"] :=
  php_reference_scanner "x.php" phpExample (by decide)

/-- C6: for a path with lower-cased extension `".sql"` the Reference
Scanner returns the stripped captured token of each findall match of
`\i\s+([^;\s]+)`, in order; on the spec's example content it returns
`["seed_data.sql"]`. -/
theorem sql_reference_scanner (p c : String)
    (hp : pyLower (splitext p).2 = ".sql") :
    find_references_in_content p c = (sqlFindAll c.toList).map (fun m => pyStrip m) ∧
    find_references_in_content "x.sql" "\\i seed_data.sql;" = ["seed_data.sql"] ∧
    find_references_in_content "x.sql" "\\i a.sql\n\\i  b.sql;" = ["a.sql", "b.sql"] := by
  refine ⟨?_, by decide, by decide⟩
  simp [find_references_in_content, hp]

theorem sql_reference_scanner_witness :
    (find_references_in_content "x.sql" "\\i seed_data.sql;" =
      (sqlFindAll ("\\i seed_data.sql;").toList).map (fun m => pyStrip m)) ∧
    find_references_in_content "x.sql" "\\i seed_data.sql;" = ["seed_data.sql"] ∧
    find_references_in_content "x.sql" "\\i a.sql\n\\i  b.sql;" = ["a.sql", "b.sql"] :=
  sql_reference_scanner "x.sql" "\\i seed_data.sql;" (by decide)

/-- C7: for a path whose lower-cased extension is neither `".php"` nor
`".sql"` (for example any `".sh"` file) the Reference Scanner returns `[]`
whatever the content is. -/
theorem other_extension_no_references (p c : String)
    (h1 : pyLower (splitext p).2 ≠ ".php")
    (h2 : pyLower (splitext p).2 ≠ ".sql") :
    find_references_in_content p c = [] := by
  simp [find_references_in_content, h1, h2]

theorem other_extension_no_references_witness :
    find_references_in_content "run.sh" phpExample = [] :=
  other_extension_no_references "run.sh" phpExample (by decide) (by decide)

/-- C8: the Overview Assembler is deterministic in its two inputs: equal
docs mappings and equal references mappings give a byte-identical overview
text (it is a pure function of the two mappings). -/
theorem overview_deterministic (d₁ d₂ : List (String × String))
    (r₁ r₂ : List (String × List String)) (hd : d₁ = d₂) (hr : r₁ = r₂) :
    generate_overview_document d₁ r₁ = generate_overview_document d₂ r₂ := by
  rw [hd, hr]

theorem overview_deterministic_witness :
    generate_overview_document [("a.php", " doc ")] [("a.php", ["x.php"])] =
      generate_overview_document [("a.php", " doc ")] [("a.php", ["x.php"])] :=
  overview_deterministic _ _ _ _ rfl rfl

/-- C9: the assembled overview is the fixed header followed by the section
lines of every docs key, keys taken in sorted order (the sorted key list is
a permutation of the docs keys, ascending in the code-point lexicographic
order `StrLeRel`); each section is the path heading, a `**Documentation**`
subheading with the stripped doc text, and a `**References / Includes**`
bulleted block exactly when the path's reference list is non-empty. -/
theorem overview_structure (d : List (String × String))
    (r : List (String × List String)) :
    generate_overview_document d r =
      joinLines (overviewHeader ++
        (sortStrings (dictKeys d)).flatMap (sectionLines d r)) ∧
    (sortStrings (dictKeys d)).Perm (dictKeys d) ∧
    List.Sorted StrLeRel (sortStrings (dictKeys d)) ∧
    ∀ p : String,
      sectionLines d r p =
        ["## " ++ p, "", "**Documentation**", "",
          pyStrip ((dictGet? d p).getD ""), ""] ++
        (if (dictGet? r p).getD [] = [] then [] else
          ["**References / Includes**", ""] ++
            ((dictGet? r p).getD []).map (fun x => "- " ++ x) ++ [""]) := by
  refine ⟨rfl, List.perm_insertionSort StrLeRel (dictKeys d),
    List.sorted_insertionSort StrLeRel (dictKeys d), ?_⟩
  intro p
  unfold sectionLines
  cases h : (dictGet? r p).getD [] with
  | nil => simp [h]
  | cons a as => simp [h]

/-- C10: the per-file output path is not injective: the distinct sources
`"dir/x.sql"` and `"dir/x.php"` both map to `"dir/x_doc.txt"`, and in a run
where both succeed the second write targets the path the first one wrote. -/
theorem doc_output_path_collision :
    ("dir/x.sql" : String) ≠ "dir/x.php" ∧
    save_output_path "dir/x.sql" = "dir/x_doc.txt" ∧
    save_output_path "dir/x.php" = "dir/x_doc.txt" ∧
    (mainRun envC10).state.fileWrites =
      [("dir/x_doc.txt", "doc of dir/x.sql"), ("dir/x_doc.txt", "doc of dir/x.php")] := by
  refine ⟨by decide, by decide, by decide, by decide⟩
